import Mathlib

set_option linter.unusedVariables false

/-!
Verification development for the GitHub release monitor
(`src/github_monitor.py`).  The markdown escaping / dialect conversion /
chunking pipeline and the retry / fallback decision logic are embedded
shallowly over `List Char`; regex-based passes are embedded by their
deterministic matching semantics (Python `re`, leftmost match,
non-overlapping, with lazy or greedy quantifier behaviour reproduced),
and every recursion is structural (fuel where the recursion consumes a
computed suffix) so that all definitions evaluate by `decide`.
-/

/-- The reserved character set of the character-loop escaping pass inside
`convert_ai_markdown_to_telegram`: `escape_chars = r'_*[]()~`>#+-=|{}.!'`. -/
def reserved18 : List Char := "_*[]()~`>#+-=|\x7b\x7d.!".data

/-- The reserved set of `escape_markdown_v2`:
`escape_chars = r'\_*[]()~`>#+-=|{}.!'` — the same 18 characters preceded by
the backslash itself. -/
def reservedV2 : List Char := '\\' :: reserved18

/-- Escaping pass: prepend one backslash to every character of `rs`.
This is both the `for char in text:` loop of
`convert_ai_markdown_to_telegram` (with `rs = reserved18`) and the
`re.sub('([...])', r'\\\1', ...)` of `escape_markdown_v2`
(with `rs = reservedV2`): both insert exactly one backslash before each
character of their class and leave every other character unchanged. -/
def escapeAll (rs : List Char) : List Char → List Char
  | [] => []
  | c :: t =>
    if c ∈ rs then '\\' :: c :: escapeAll rs t else c :: escapeAll rs t

/-- `true` iff every backslash opens a two-character escape of a character
of `rs` and every character of `rs` occurs only escaped: i.e. every
reserved character is preceded by exactly one escape marker. -/
def properlyEscaped (rs : List Char) : List Char → Bool
  | [] => true
  | c :: t =>
    if c = '\\' then
      match t with
      | [] => false
      | d :: t2 => if d ∈ rs then properlyEscaped rs t2 else false
    else if c ∈ rs then false else properlyEscaped rs t

/-- Delete each escape marker (a backslash consumes the following char as
the escaped character, which is kept). -/
def stripEsc : List Char → List Char
  | [] => []
  | c :: t =>
    if c = '\\' then
      match t with
      | [] => ['\\']
      | d :: t2 => d :: stripEsc t2
    else c :: stripEsc t

/-- Python `str.replace(pat, rep)` (all occurrences, leftmost,
non-overlapping, replacement not rescanned), fueled; each step consumes at
least one character of `s`, so `fuel = s.length` suffices. -/
def replaceAllF (pat rep : List Char) : Nat → List Char → List Char
  | 0, s => s
  | fuel + 1, [] => []
  | fuel + 1, c :: t =>
    if pat ≠ [] ∧ pat.isPrefixOf (c :: t) then
      rep ++ replaceAllF pat rep fuel ((c :: t).drop pat.length)
    else c :: replaceAllF pat rep fuel t

/-- Python `s.replace(pat, rep)`. -/
def replaceAll (s pat rep : List Char) : List Char :=
  replaceAllF pat rep s.length s

/-- Greedy match of `([^\]]+)\]\(([^\)]+)\)` against the text following a
`[` (the link pattern of `convert_ai_markdown_to_telegram`,
`r'\[([^\]]+)\]\(([^\)]+)\)'`): a nonempty run without `]`, then `](`,
then a nonempty run without `)`, then `)`; the character classes exclude
their closing delimiter, so the greedy semantics are deterministic.
Returns `(label, url, rest)`. -/
def matchLinkStrict (t : List Char) : Option (List Char × List Char × List Char) :=
  let label := t.takeWhile (fun d => d != ']')
  match t.dropWhile (fun d => d != ']') with
  | ']' :: '(' :: u =>
    if label = [] then none
    else
      let url := u.takeWhile (fun d => d != ')')
      match u.dropWhile (fun d => d != ')') with
      | ')' :: rest => if url = [] then none else some (label, url, rest)
      | _ => none
  | _ => none

/-- Scan replacing each match of `\[([^\]]+)\]\(([^\)]+)\)` by
`LINK_PH_{i}` and recording the full matched text, in discovery order
(the `re.sub(..., save_link, text)` pass of
`convert_ai_markdown_to_telegram`).  Fueled: every step consumes at least
one input character. -/
def extractLinksF : Nat → List Char → Nat → List Char × List (List Char)
  | 0, s, _ => (s, [])
  | fuel + 1, [], _ => ([], [])
  | fuel + 1, c :: t, n =>
    if c = '[' then
      match matchLinkStrict t with
      | some (label, url, rest) =>
        let pr := extractLinksF fuel rest (n + 1)
        ("LINK_PH_".data ++ (Nat.repr n).data ++ pr.1,
         ('[' :: label ++ ']' :: '(' :: url ++ [')']) :: pr.2)
      | none =>
        let pr := extractLinksF fuel t n
        (c :: pr.1, pr.2)
    else
      let pr := extractLinksF fuel t n
      (c :: pr.1, pr.2)

/-- Scan replacing each match of `\*\*([^\*]+)\*\*` by `BOLD_PH_{i}` and
recording the normalized single-marker form `*content*` (the
`save_bold` pass). -/
def extractBoldsF : Nat → List Char → Nat → List Char × List (List Char)
  | 0, s, _ => (s, [])
  | fuel + 1, [], _ => ([], [])
  | fuel + 1, c :: t, n =>
    if c = '*' then
      match t with
      | '*' :: u =>
        let content := u.takeWhile (fun d => d != '*')
        match u.dropWhile (fun d => d != '*') with
        | '*' :: '*' :: rest =>
          if content = [] then
            let pr := extractBoldsF fuel t n
            (c :: pr.1, pr.2)
          else
            let pr := extractBoldsF fuel rest (n + 1)
            ("BOLD_PH_".data ++ (Nat.repr n).data ++ pr.1,
             ('*' :: content ++ ['*']) :: pr.2)
        | _ =>
          let pr := extractBoldsF fuel t n
          (c :: pr.1, pr.2)
      | _ =>
        let pr := extractBoldsF fuel t n
        (c :: pr.1, pr.2)
    else
      let pr := extractBoldsF fuel t n
      (c :: pr.1, pr.2)

/-- Scan replacing each match of `` `([^`]+)` `` by `CODE_PH_{i}` and
recording the full matched text (the `save_code` pass). -/
def extractCodesF : Nat → List Char → Nat → List Char × List (List Char)
  | 0, s, _ => (s, [])
  | fuel + 1, [], _ => ([], [])
  | fuel + 1, c :: t, n =>
    if c = '`' then
      let content := t.takeWhile (fun d => d != '`')
      match t.dropWhile (fun d => d != '`') with
      | '`' :: rest =>
        if content = [] then
          let pr := extractCodesF fuel t n
          (c :: pr.1, pr.2)
        else
          let pr := extractCodesF fuel rest (n + 1)
          ("CODE_PH_".data ++ (Nat.repr n).data ++ pr.1,
           ('`' :: content ++ ['`']) :: pr.2)
      | _ =>
        let pr := extractCodesF fuel t n
        (c :: pr.1, pr.2)
    else
      let pr := extractCodesF fuel t n
      (c :: pr.1, pr.2)

/-- The restoration loops
`for i, x in enumerate(xs): text = text.replace(prefix + str(i), x)`. -/
def restoreFrom (pre : List Char) : List Char → Nat → List (List Char) → List Char
  | s, _, [] => s
  | s, i, x :: xs =>
    restoreFrom pre (replaceAll s (pre ++ (Nat.repr i).data) x) (i + 1) xs

/-- `convert_ai_markdown_to_telegram`: extract links, then bold
(normalized `**text**` → `*text*`), then inline code; escape every
`reserved18` character in the remainder; then restore code, bold and
links by textual replacement of the placeholders. -/
def convert_ai_markdown_to_telegram (text : List Char) : List Char :=
  if text = [] then []
  else
    let pl := extractLinksF text.length text 0
    let pb := extractBoldsF pl.1.length pl.1 0
    let pc := extractCodesF pb.1.length pb.1 0
    let e := escapeAll reserved18 pc.1
    let r1 := restoreFrom "CODE_PH_".data e 0 pc.2
    let r2 := restoreFrom "BOLD_PH_".data r1 0 pb.2
    restoreFrom "LINK_PH_".data r2 0 pl.2

example : convert_ai_markdown_to_telegram "a.b".data = "a\\.b".data := by decide

example :
    convert_ai_markdown_to_telegram "[a](b)".data = "LINK\\_PH\\_0".data := by decide

example :
    convert_ai_markdown_to_telegram "**x**!".data = "BOLD\\_PH\\_0\\!".data := by decide

/-- Lazy match of `.*?\)` : the characters before the first `)`, all
non-newline (Python `.` does not match a newline); `none` when a newline
or the end of input comes first. -/
def findRparen : List Char → Option (List Char × List Char)
  | [] => none
  | c :: t =>
    if c = ')' then some ([], t)
    else if c = '\n' then none
    else
      match findRparen t with
      | some (b, r) => some (c :: b, r)
      | none => none

/-- Lazy match of `.*?\]\(.*?\)` against the text following a `[`
(the pattern `r'\[.*?\]\(.*?\)'` of `escape_markdown_v2` and
`r'\[(.*?)\]\((.*?)\)'` of the fallback path): backtracking expands the
first lazy group to the next `](` whenever the second group cannot reach
a `)` without a newline.  Returns `(label, url, rest)` so that the whole
match is `'[' :: label ++ "](" ++ url ++ ")"`. -/
def matchLinkLazy : List Char → Option (List Char × List Char × List Char)
  | [] => none
  | c :: t =>
    if c = '\n' then none
    else
      let expand :=
        match matchLinkLazy t with
        | some (a, b, r) => some (c :: a, b, r)
        | none => none
      if c = ']' then
        match t with
        | '(' :: u =>
          match findRparen u with
          | some (b, r) => some ([], b, r)
          | none => expand
        | _ => expand
      else expand

/-- Scan of `re.sub(r'\[.*?\]\(.*?\)', link_replacer, text)` inside
`escape_markdown_v2`: each match is replaced by the placeholder
`__LINK_{uuid4().hex}__` and the pair `(placeholder, original)` is
recorded.  The process-random hex strings are supplied by the oracle
`uuid : Nat → List Char` (one draw per match, in match order). -/
def extractLinksV2F (uuid : Nat → List Char) : Nat → List Char → Nat → List Char × List (List Char × List Char)
  | 0, s, _ => (s, [])
  | fuel + 1, [], _ => ([], [])
  | fuel + 1, c :: t, n =>
    if c = '[' then
      match matchLinkLazy t with
      | some (a, b, rest) =>
        let ph := "__LINK_".data ++ uuid n ++ "__".data
        let orig := '[' :: a ++ ']' :: '(' :: b ++ [')']
        let pr := extractLinksV2F uuid fuel rest (n + 1)
        (ph ++ pr.1, (ph, orig) :: pr.2)
      | none =>
        let pr := extractLinksV2F uuid fuel t n
        (c :: pr.1, pr.2)
    else
      let pr := extractLinksV2F uuid fuel t n
      (c :: pr.1, pr.2)

/-- `escape_markdown_v2`: replace each link-syntax match by a
uuid-carrying placeholder, escape every `reservedV2` character
(backslash included) of the remainder, then replace each placeholder
back by its original link text. -/
def escape_markdown_v2 (uuid : Nat → List Char) (text : List Char) : List Char :=
  if text = [] then []
  else
    let pr := extractLinksV2F uuid text.length text 0
    pr.2.foldl (fun acc q => replaceAll acc q.1 q.2) (escapeAll reservedV2 pr.1)

/-- A fixed uuid-oracle for concrete evaluations: every draw is the same
32-character hex string (any value of the random component produces the
same observable failures, since the mangled placeholder can never be
found again; this witnesses one concrete draw). -/
def cexUuid : Nat → List Char := fun _ => "0123456789abcdef0123456789abcdef".data

example : escape_markdown_v2 cexUuid "a.b".data = "a\\.b".data := by decide

example : escape_markdown_v2 cexUuid "\\".data = "\\\\".data := by decide

example :
    escape_markdown_v2 cexUuid "[a](b)".data =
      "\\_\\_LINK\\_0123456789abcdef0123456789abcdef\\_\\_".data := by decide

/-- Helper for paragraph/line splitting: prepend a character to the first
piece of a split. -/
def consHead (c : Char) : List (List Char) → List (List Char)
  | [] => [[c]]
  | h :: r => (c :: h) :: r

/-- Python `text.split('\n\n')` (leftmost, non-overlapping separators). -/
def splitSep2 : List Char → List (List Char)
  | [] => [[]]
  | '\n' :: '\n' :: t => [] :: splitSep2 t
  | c :: t => consHead c (splitSep2 t)

/-- Python `paragraph.split('\n')`. -/
def splitNL : List Char → List (List Char)
  | [] => [[]]
  | '\n' :: t => [] :: splitNL t
  | c :: t => consHead c (splitNL t)

example : splitSep2 "a\n\n\nb".data = ["a".data, "\nb".data] := by decide

example : splitNL "a\nb\n".data = ["a".data, "b".data, [] ] := by decide

/-- The inner line loop of `split_message_markdown`
(`for line in lines: ...`): greedy packing of lines joined by `'\n'`;
a line that does not fit flushes the current chunk (when nonempty) and
becomes the new current chunk, however long it is.
State: `(chunks, current_chunk)`. -/
def packLines (maxL : Nat) : List (List Char) → List Char → List (List Char) → List (List Char) × List Char
  | [], cur, chunks => (chunks, cur)
  | l :: ls, cur, chunks =>
    if cur.length + l.length + 1 ≤ maxL then
      packLines maxL ls (if cur = [] then l else cur ++ '\n' :: l) chunks
    else
      packLines maxL ls l (if cur = [] then chunks else chunks ++ [cur])

/-- The outer paragraph loop of `split_message_markdown`
(`for paragraph in paragraphs: ...`): greedy packing joined by `'\n\n'`;
a paragraph that does not fit either flushes the nonempty current chunk
and becomes the new current chunk verbatim (without any further size
check), or — when the current chunk is empty — is split into lines. -/
def packParas (maxL : Nat) : List (List Char) → List Char → List (List Char) → List (List Char) × List Char
  | [], cur, chunks => (chunks, cur)
  | p :: ps, cur, chunks =>
    if cur.length + p.length + 2 ≤ maxL then
      packParas maxL ps (if cur = [] then p else cur ++ '\n' :: '\n' :: p) chunks
    else
      if cur ≠ [] then
        packParas maxL ps p (chunks ++ [cur])
      else
        packParas maxL ps (packLines maxL (splitNL p) cur chunks).2
          (packLines maxL (splitNL p) cur chunks).1

/-- The chunk list of `split_message_markdown` before indicators are
appended: the packing loops plus the final
`if current_chunk: chunks.append(current_chunk)`. -/
def splitRaw (text : List Char) (maxL : Nat) : List (List Char) :=
  let pr := packParas maxL (splitSep2 text) [] []
  if pr.2 = [] then pr.1 else pr.1 ++ [pr.2]

/-- The chunks of `split_message_markdown` before the indicator pass:
the early return `[text]` when the text fits, else the packed chunks. -/
def rawChunks (text : List Char) (maxL : Nat) : List (List Char) :=
  if text.length ≤ maxL then [text] else splitRaw text maxL

/-- The f-string `f'(часть {i}/{len(chunks)})'`. -/
def partText (i n : Nat) : List Char :=
  "(часть ".data ++ (Nat.repr i).data ++ "/".data ++ (Nat.repr n).data ++ [')']

/-- The appended tail `f"\n\n_{escape_markdown_v2(...)}_"` of chunk `i`
of `n`. -/
def indicatorText (uuid : Nat → List Char) (i n : Nat) : List Char :=
  "\n\n_".data ++ escape_markdown_v2 uuid (partText i n) ++ "_".data

/-- The indicator loop `for i, chunk in enumerate(chunks, 1): ...`
(1-based `i`, `n` the final total). -/
def addIndicators (uuid : Nat → List Char) (n : Nat) : Nat → List (List Char) → List (List Char)
  | _, [] => []
  | i, c :: r => (c ++ indicatorText uuid i n) :: addIndicators uuid n (i + 1) r

/-- `split_message_markdown(text, max_length)`: return `[text]` when it
fits; otherwise pack paragraphs/lines greedily and, when more than one
chunk resulted, append an escaped italicized `(часть i/N)` indicator to
every chunk. -/
def split_message_markdown (uuid : Nat → List Char) (text : List Char) (maxL : Nat) : List (List Char) :=
  let raw := rawChunks text maxL
  if 1 < raw.length then addIndicators uuid raw.length 1 raw else raw

example :
    split_message_markdown cexUuid "aaa\n\nbbb\nccc".data 5 =
      ["aaa\n\n_\\(часть 1/2\\)_".data, "bbb\nccc\n\n_\\(часть 2/2\\)_".data] := by
  decide

/-- Python whitespace class `\s` (the ASCII members; the release texts in
scope are covered by these). -/
def isPyWS (c : Char) : Bool :=
  c = ' ' || c = '\t' || c = '\n' || c = '\r' || c = '\x0b' || c = '\x0c'

/-- Python `str.strip()`. -/
def pyStrip (l : List Char) : List Char :=
  ((l.dropWhile isPyWS).reverse.dropWhile isPyWS).reverse

/-- `re.sub(r'\n\s*\n+', '\n', text)` : within every maximal whitespace
run that begins at a newline and contains a second newline, the match
extends (greedy `\s*` backtracking into greedy `\n+`) from the first
newline through the last newline of the run, and is replaced by a single
newline; trailing non-newline whitespace of the run survives. -/
def collapseWSF : Nat → List Char → List Char
  | 0, s => s
  | fuel + 1, [] => []
  | fuel + 1, c :: t =>
    if c = '\n' then
      let run := t.takeWhile isPyWS
      if '\n' ∈ run then
        '\n' :: collapseWSF fuel
          ((run.reverse.takeWhile (fun d => d != '\n')).reverse ++ t.dropWhile isPyWS)
      else '\n' :: collapseWSF fuel t
    else c :: collapseWSF fuel t

/-- `re.sub(r'\n\s*\n+', '\n', text)`. -/
def collapseWS (l : List Char) : List Char := collapseWSF l.length l

example : collapseWS "a\n \n\n x\nb".data = "a\n x\nb".data := by decide

/-- `re.sub(r'\[(.*?)\]\((.*?)\)', r'\1', text)` of the fallback path:
each lazy link match is replaced by its label text. -/
def subLinkLabelF : Nat → List Char → List Char
  | 0, s => s
  | fuel + 1, [] => []
  | fuel + 1, c :: t =>
    if c = '[' then
      match matchLinkLazy t with
      | some (a, _, rest) => a ++ subLinkLabelF fuel rest
      | none => c :: subLinkLabelF fuel t
    else c :: subLinkLabelF fuel t

/-- Link syntax stripped down to label text. -/
def subLinkLabel (l : List Char) : List Char := subLinkLabelF l.length l

example : subLinkLabel "see [docs](http://x) now".data = "see docs now".data := by decide

/-- The markup marker class removed by the fallback path,
`re.sub(r'[*_`~#>]', '', ...)`. -/
def markerChars : List Char := "*_`~#>".data

/-- The plain text computed by the fallback branch of
`get_openrouter_summary` before the final escaping: strip link syntax to
labels, delete the marker characters, collapse blank runs, `strip()`,
and truncate to 497 characters plus `"..."` when longer than 500. -/
def fallbackPlain (notes : List Char) : List Char :=
  let p1 := subLinkLabel notes
  let p2 := p1.filter (fun c => !(c ∈ markerChars))
  let p3 := pyStrip (collapseWS p2)
  if 500 < p3.length then p3.take 497 ++ "...".data else p3

/-- The sentinel `'Нет описания.'`. -/
def noDescription : List Char := "Нет описания.".data

/-- One OpenRouter chat-completion attempt, abstracted: the API call
either raises (an `APIStatusError`-style exception carrying the HTTP
status, or a transport error modelled as status 0) or returns the
message content. -/
inductive SumAttempt where
  | apiErr (code : Nat)
  | content (s : List Char)
deriving DecidableEq

/-- The exception that ends the retried summary call: an API error or
the `ValueError('Пустой ответ от OpenRouter')` raised on an
empty/too-short reply. -/
inductive SumErr where
  | api (code : Nat)
  | emptyReply
deriving DecidableEq

/-- The tenacity loop of `get_openrouter_summary_with_retry`
(`stop_after_attempt(3)`, `retry_if_exception_type((Exception,))`,
`reraise=True`): every raised exception is retried until the attempts
are exhausted, then re-raised.  A returned content is stripped; a
nonempty reply longer than 10 characters is converted and returned,
anything else raises `ValueError` (and is therefore also retried).
Returns the outcome together with the number of attempts performed. -/
def sumLoop (att : Nat → SumAttempt) : Nat → Nat → Except SumErr (List Char) × Nat
  | used, 0 => (Except.error SumErr.emptyReply, used)
  | used, rem + 1 =>
    match att used with
    | SumAttempt.apiErr c =>
      if rem = 0 then (Except.error (SumErr.api c), used + 1)
      else sumLoop att (used + 1) rem
    | SumAttempt.content s =>
      let sm := pyStrip s
      if sm ≠ [] ∧ 10 < sm.length then
        (Except.ok (convert_ai_markdown_to_telegram sm), used + 1)
      else if rem = 0 then (Except.error SumErr.emptyReply, used + 1)
      else sumLoop att (used + 1) rem

/-- `get_openrouter_summary_with_retry(release_notes, language)`:
empty or sentinel notes return the sentinel from the first attempt
without calling the API (notes longer than 4000 characters are truncated
before being embedded in the prompt, which does not affect the modelled
outcome); otherwise up to three attempts are made.  Returns the outcome
and the number of attempts. -/
def get_openrouter_summary_with_retry (att : Nat → SumAttempt) (notes : List Char) : Except SumErr (List Char) × Nat :=
  if notes = [] ∨ notes = noDescription then (Except.ok noDescription, 1)
  else sumLoop att 0 3

/-- `get_openrouter_summary(release_notes, language)`: the retried call,
with the cleaned / truncated / escaped original text as fallback once
every attempt has failed.  Total — it never raises. -/
def get_openrouter_summary (uuid : Nat → List Char) (att : Nat → SumAttempt) (notes : List Char) : List Char :=
  match (get_openrouter_summary_with_retry att notes).1 with
  | Except.ok s => s
  | Except.error _ => escape_markdown_v2 uuid (fallbackPlain notes)

example :
    get_openrouter_summary cexUuid (fun _ => SumAttempt.apiErr 500) "Fixed **bug**!".data =
      "Fixed bug\\!".data := by decide

example :
    (get_openrouter_summary_with_retry (fun _ => SumAttempt.apiErr 403) "x".data).2 = 3 := by
  decide

/-- One release-fetch attempt: a response with an HTTP status, or a
transport-level failure (connection / timeout / DNS, raised by
`client.get`). -/
inductive HttpAttempt where
  | status (code : Nat)
  | transport
deriving DecidableEq

/-- Outcome of the retried release fetch, as seen after the
`AsyncRetrying` block and its `except` clauses. -/
inductive FetchRes where
  | ok (code : Nat)
  | httpErr (code : Nat)
  | netErr
deriving DecidableEq

/-- The `AsyncRetrying(stop=stop_after_attempt(3), ...)` loop of
`check_repo_for_updates`: inside the block only a 5xx status calls
`raise_for_status()`, so any status below 500 ends the loop successfully
after its attempt; transport errors and 5xx responses are retried, and
re-raised once three attempts are exhausted.  Returns the outcome and
the number of attempts performed. -/
def fetchLoop (att : Nat → HttpAttempt) : Nat → Nat → FetchRes × Nat
  | used, 0 => (FetchRes.netErr, used)
  | used, rem + 1 =>
    match att used with
    | HttpAttempt.status s =>
      if 500 ≤ s then
        if rem = 0 then (FetchRes.httpErr s, used + 1)
        else fetchLoop att (used + 1) rem
      else (FetchRes.ok s, used + 1)
    | HttpAttempt.transport =>
      if rem = 0 then (FetchRes.netErr, used + 1)
      else fetchLoop att (used + 1) rem

/-- The retried release fetch (three attempts). -/
def releaseFetch (att : Nat → HttpAttempt) : FetchRes × Nat := fetchLoop att 0 3

example : releaseFetch (fun _ => HttpAttempt.status 403) = (FetchRes.ok 403, 1) := by decide

example : releaseFetch (fun _ => HttpAttempt.status 503) = (FetchRes.httpErr 503, 3) := by decide

example : releaseFetch (fun _ => HttpAttempt.transport) = (FetchRes.netErr, 3) := by decide

/-- Failure raised by the Telegram send: an `httpx.HTTPStatusError`
carrying the response status, or an `httpx.RequestError`. -/
inductive SendErr where
  | httpStatus (code : Nat)
  | network
deriving DecidableEq

/-- A message handed to the notification sink: a release announcement
passed to `send_telegram_message`, or an error text passed to
`send_error_notification` (which wraps it and forwards it to the same
sink). -/
inductive Event where
  | releaseMsg (text : List Char)
  | errorNote (text : List Char)
deriving DecidableEq

/-- The external world of one `check_repo_for_updates` task:
the outcomes of its release-fetch attempts, of the secondary existence
check (`client.head`, `none` = the check itself raised), the fields of
the fetched release object, the outcomes of the summary attempts, the
uuid draws, and the outcome of the Telegram send (`none` = success). -/
structure RepoEnv where
  repoName : List Char
  repoPath : List Char
  fetch : Nat → HttpAttempt
  existCheck : Option Nat
  releaseId : Int
  tagName : List Char
  htmlUrl : List Char
  publishedAt : List Char
  prerelease : Bool
  body : Option (List Char)
  sumAttempts : Nat → SumAttempt
  uuid : Nat → List Char
  sendResult : Option SendErr

/-- `latest_release.get('body') or 'Нет описания.'` (`None` and the empty
string are both falsy). -/
def origBody (env : RepoEnv) : List Char :=
  match env.body with
  | none => noDescription
  | some b => if b = [] then noDescription else b

/-- `release_id == last_seen_id` (`last_seen_id` may be `None`, which an
integer never equals). -/
def idMatches (rid : Int) : Option Int → Bool
  | some l => rid == l
  | none => false

/-- The f-string building the announcement message. -/
def buildMessage (env : RepoEnv) (summary : List Char) : List Char :=
  "🎉 *New Release: ".data ++ escape_markdown_v2 env.uuid env.repoName
    ++ "*\n📦 Version: `".data ++ escape_markdown_v2 env.uuid env.tagName
    ++ "` ".data ++ (if env.prerelease then "🧪 PRE\\-RELEASE".data else [])
    ++ "\n📅 Date: ".data ++ escape_markdown_v2 env.uuid (env.publishedAt.take 10)
    ++ "\n━━━━━━━━━━━━━━━━━━\n\n".data
    ++ summary
    ++ "\n\n━━━━━━━━━━━━━━━━━━\n[📖 Full changelog](".data
    ++ env.htmlUrl ++ ")".data

/-- `f"Репозиторий {repo_name} ({repo_path}) не найден"`. -/
def repoNotFoundText (env : RepoEnv) : List Char :=
  "Репозиторий ".data ++ env.repoName ++ " (".data ++ env.repoPath ++ ") не найден".data

/-- The error text of the final generic handler,
`f"Ошибка при проверке {repo_name}: {str(e)}"` (the exception text is not
tracked by the model). -/
def checkFailText (env : RepoEnv) : List Char :=
  "Ошибка при проверке ".data ++ env.repoName

/-- `check_repo_for_updates`: returns the value returned to the
coordinator and the sequence of messages handed to the notification
sink.  Control flow: the retried fetch; `raise_for_status()`; the
404-handler with its secondary existence check; 403 and other 4xx logged
only; on a new id, summary, message build, send; uncaught send errors
fall into the same two outer handlers. -/
def check_repo_for_updates (env : RepoEnv) (last : Option Int) : Option Int × List Event :=
  match (releaseFetch env.fetch).1 with
  | FetchRes.netErr => (none, [Event.errorNote (checkFailText env)])
  | FetchRes.httpErr _ => (none, [])
  | FetchRes.ok s =>
    if 400 ≤ s then
      if s = 404 then
        match env.existCheck with
        | some code =>
          if code = 200 then (none, [])
          else (none, [Event.errorNote (repoNotFoundText env)])
        | none => (none, [Event.errorNote (repoNotFoundText env)])
      else (none, [])
    else
      if idMatches env.releaseId last then (none, [])
      else
        let msg := buildMessage env
          (get_openrouter_summary env.uuid env.sumAttempts (origBody env))
        match env.sendResult with
        | none => (some env.releaseId, [Event.releaseMsg msg])
        | some (SendErr.httpStatus c) =>
          if c = 404 then
            match env.existCheck with
            | some code =>
              if code = 200 then (none, [Event.releaseMsg msg])
              else (none, [Event.releaseMsg msg, Event.errorNote (repoNotFoundText env)])
            | none => (none, [Event.releaseMsg msg, Event.errorNote (repoNotFoundText env)])
          else (none, [Event.releaseMsg msg])
        | some SendErr.network =>
          (none, [Event.releaseMsg msg, Event.errorNote (checkFailText env)])

/-- One step of the result loop in `main`
(`for (repo_name, _), result in zip(tasks, results): ...`): exceptions
are only logged; `elif result:` commits the returned id only when it is
neither `None` nor `0` (Python truthiness). -/
def mainStep (st : List Char → Option Int) (name : List Char) (res : Except Unit (Option Int)) : List Char → Option Int :=
  match res with
  | Except.error _ => st
  | Except.ok none => st
  | Except.ok (some v) =>
    if v ≠ 0 then (fun n => if n = name then some v else st n) else st

/-- The aggregation of `main`: `new_state = current_state.copy()`
followed by the result loop. -/
def mainAggregate (st : List Char → Option Int) : List (List Char × Except Unit (Option Int)) → (List Char → Option Int)
  | [] => st
  | nr :: rest => mainAggregate (mainStep st nr.1 nr.2) rest

/-! ### Lemmas about the escaping pass -/

theorem propEsc_marker (rs : List Char) (d : Char) (t : List Char) (hd : d ∈ rs) :
    properlyEscaped rs ('\\' :: d :: t) = properlyEscaped rs t := by
  rw [properlyEscaped.eq_3]; simp [hd]

theorem propEsc_cons (rs : List Char) (c : Char) (t : List Char)
    (hcb : c ≠ '\\') (hc : c ∉ rs) (h : properlyEscaped rs t = true) :
    properlyEscaped rs (c :: t) = true := by
  cases t with
  | nil => simp [properlyEscaped, hcb, hc]
  | cons d t2 => rw [properlyEscaped.eq_3]; simp [hcb, hc]; simpa using h

theorem stripEsc_marker (d : Char) (t : List Char) :
    stripEsc ('\\' :: d :: t) = d :: stripEsc t := by
  rw [stripEsc.eq_3]; simp

theorem stripEsc_cons (c : Char) (t : List Char) (hcb : c ≠ '\\') :
    stripEsc (c :: t) = c :: stripEsc t := by
  cases t with
  | nil => simp [stripEsc, hcb]
  | cons d t2 => rw [stripEsc.eq_3]; simp [hcb]

theorem escapeAll_propEsc (rs : List Char) (l : List Char)
    (h : '\\' ∈ rs ∨ '\\' ∉ l) :
    properlyEscaped rs (escapeAll rs l) = true := by
  induction l with
  | nil => rfl
  | cons c t ih =>
    have ht : '\\' ∈ rs ∨ '\\' ∉ t := by
      rcases h with h | h
      · exact Or.inl h
      · exact Or.inr fun hm => h (List.mem_cons_of_mem _ hm)
    by_cases hc : c ∈ rs
    · simp only [escapeAll, if_pos hc, propEsc_marker rs c _ hc]
      exact ih ht
    · have hcb : c ≠ '\\' := by
        rcases h with h | h
        · intro he; exact hc (he ▸ h)
        · intro he; exact h (he ▸ List.mem_cons_self c t)
      simp only [escapeAll, if_neg hc]
      exact propEsc_cons rs c _ hcb hc (ih ht)

theorem escapeAll_stripEsc (rs : List Char) (l : List Char)
    (h : '\\' ∈ rs ∨ '\\' ∉ l) :
    stripEsc (escapeAll rs l) = l := by
  induction l with
  | nil => rfl
  | cons c t ih =>
    have ht : '\\' ∈ rs ∨ '\\' ∉ t := by
      rcases h with h | h
      · exact Or.inl h
      · exact Or.inr fun hm => h (List.mem_cons_of_mem _ hm)
    by_cases hc : c ∈ rs
    · simp only [escapeAll, if_pos hc, stripEsc_marker]
      exact congrArg (c :: ·) (ih ht)
    · have hcb : c ≠ '\\' := by
        rcases h with h | h
        · intro he; exact hc (he ▸ h)
        · intro he; exact h (he ▸ List.mem_cons_self c t)
      simp only [escapeAll, if_neg hc, stripEsc_cons c _ hcb]
      exact congrArg (c :: ·) (ih ht)

theorem escapeAll_count (rs : List Char) (l : List Char) (c : Char)
    (hc : c ≠ '\\') :
    (escapeAll rs l).count c = l.count c := by
  induction l with
  | nil => rfl
  | cons a t ih =>
    by_cases ha : a ∈ rs
    · simp only [escapeAll, if_pos ha, List.count_cons, ih]
      have : ('\\' == c) = false := by
        simp only [beq_eq_false_iff_ne]; exact fun he => hc he.symm
      simp [this]
    · simp only [escapeAll, if_neg ha, List.count_cons, ih]

theorem extractLinksV2F_no_bracket (uuid : Nat → List Char) :
    ∀ (fuel : Nat) (t : List Char) (n : Nat), '[' ∉ t →
      extractLinksV2F uuid fuel t n = (t, []) := by
  intro fuel
  induction fuel with
  | zero => intro t n _; rfl
  | succ f ih =>
    intro t n h
    cases t with
    | nil => rfl
    | cons c t2 =>
      have hc : c ≠ '[' := fun he => h (he ▸ List.mem_cons_self c t2)
      have ht : '[' ∉ t2 := fun hm => h (List.mem_cons_of_mem _ hm)
      simp only [extractLinksV2F, if_neg hc, ih t2 n ht]

theorem escape_markdown_v2_no_bracket (uuid : Nat → List Char) (t : List Char)
    (h : '[' ∉ t) :
    escape_markdown_v2 uuid t = escapeAll reservedV2 t := by
  by_cases ht : t = []
  · subst ht; rfl
  · simp only [escape_markdown_v2, if_neg ht,
      extractLinksV2F_no_bracket uuid t.length t 0 h]
    rfl

/-! ### Claims C1, C2: escaping and placeholder survival -/

/-- C1: refuted on the code — the placeholders `LINK_PH_i` / `BOLD_PH_i` /
`CODE_PH_i` contain the reserved character `_`, so the escaping pass
rewrites `LINK_PH_0` to `LINK\_PH\_0`; the restoration `replace` then
never finds its placeholder and the extracted link `[a](b)` is never
restored into the output (zero times, not exactly once).  This
contradicts the function's own documented step 5 («Возвращаем сохраненные
блоки на места»). -/
theorem claim1_placeholder_mangled :
    convert_ai_markdown_to_telegram "[a](b)".data = "LINK\\_PH\\_0".data
    ∧ ¬ ("[a](b)".data <:+: convert_ai_markdown_to_telegram "[a](b)".data)
    ∧ ¬ ("a".data <:+: convert_ai_markdown_to_telegram "[a](b)".data) := by
  refine ⟨by decide, ?_, ?_⟩ <;> decide

/-- C2: counterexample.  `escape_markdown_v2` does not leave non-reserved
characters unaltered: on the link input `[a](b)` it replaces the whole
link by a `__LINK_<hex>__` placeholder whose underscores are then escaped,
so the restoration replace never fires — the output gains characters such
as `L` that the input never contained (and loses the reserved `[ ] ( )`
entirely); and a backslash, outside the claimed reserved set, is doubled. -/
theorem claim2_counterexample :
    (escape_markdown_v2 cexUuid "[a](b)".data).count 'L' = 1
    ∧ "[a](b)".data.count 'L' = 0
    ∧ (escape_markdown_v2 cexUuid "[a](b)".data).count '[' = 0
    ∧ escape_markdown_v2 cexUuid "\\".data = "\\\\".data := by
  refine ⟨?_, ?_, ?_, ?_⟩ <;> decide

/-- C2 (amended): for inputs containing no `[` (so the link-protection
pass cannot fire) and no backslash, `escape_markdown_v2` coincides with
the plain escaping pass over its extended reserved set (the 18 characters
plus the backslash itself, which the source list `r'\_*...'` also
contains): every reserved character of the output is preceded by exactly
one escape marker, deleting the inserted markers restores the input, and
the count of every character other than the marker is unchanged.  The
character-loop pass inside `convert_ai_markdown_to_telegram` satisfies
the same properties over exactly the 18-character set. -/
theorem claim2_amended (uuid : Nat → List Char) (t : List Char)
    (h1 : '[' ∉ t) (h2 : '\\' ∉ t) :
    escape_markdown_v2 uuid t = escapeAll reservedV2 t
    ∧ properlyEscaped reservedV2 (escape_markdown_v2 uuid t) = true
    ∧ stripEsc (escape_markdown_v2 uuid t) = t
    ∧ (∀ c, c ≠ '\\' → (escape_markdown_v2 uuid t).count c = t.count c)
    ∧ properlyEscaped reserved18 (escapeAll reserved18 t) = true
    ∧ stripEsc (escapeAll reserved18 t) = t
    ∧ (∀ c, c ≠ '\\' → (escapeAll reserved18 t).count c = t.count c) := by
  have he := escape_markdown_v2_no_bracket uuid t h1
  have hbs : ('\\' : Char) ∈ reservedV2 := by decide
  refine ⟨he, ?_, ?_, ?_, ?_, ?_, ?_⟩
  · rw [he]; exact escapeAll_propEsc reservedV2 t (Or.inl hbs)
  · rw [he]; exact escapeAll_stripEsc reservedV2 t (Or.inl hbs)
  · intro c hc; rw [he]; exact escapeAll_count reservedV2 t c hc
  · exact escapeAll_propEsc reserved18 t (Or.inr h2)
  · exact escapeAll_stripEsc reserved18 t (Or.inr h2)
  · intro c hc; exact escapeAll_count reserved18 t c hc

/-- C2 (witness): the amended claim at the concrete input `a.b!`. -/
theorem claim2_witness :
    escape_markdown_v2 cexUuid "a.b!".data = escapeAll reservedV2 "a.b!".data
    ∧ properlyEscaped reservedV2 (escape_markdown_v2 cexUuid "a.b!".data) = true
    ∧ stripEsc (escape_markdown_v2 cexUuid "a.b!".data) = "a.b!".data
    ∧ (escapeAll reserved18 "a.b!".data).count 'a' = "a.b!".data.count 'a' := by
  have h := claim2_amended cexUuid "a.b!".data (by decide) (by decide)
  exact ⟨h.1, h.2.1, h.2.2.1, h.2.2.2.2.2.2 'a' (by decide)⟩

/-! ### Claim C5: retry decision tables of the two call paths -/

/-- C5: counterexample.  A persistent HTTP 403 is retried three times on
the AI-summary path (`retry_if_exception_type((Exception,))` with
`stop_after_attempt(3)` retries every exception), while on the
release-fetch path a 403 response ends the retry block after exactly one
attempt — the two decision tables are not identical and 403 is not
terminal after one attempt on the summary path. -/
theorem claim5_counterexample :
    (get_openrouter_summary_with_retry (fun _ => SumAttempt.apiErr 403) "x".data).2 = 3
    ∧ (releaseFetch (fun _ => HttpAttempt.status 403)).2 = 1 := by
  exact ⟨by decide, by decide⟩

/-- C5 (amended): on the release-fetch path every 4xx response (403
included) is terminal after exactly one attempt, and only transport
failures and 5xx responses are retried, up to 3 attempts; on the
AI-summary path every raised exception — API errors for 4xx and 403
included — is retried up to 3 attempts, so the two decision tables
differ. -/
theorem claim5_amended (att : Nat → HttpAttempt) (satt : Nat → SumAttempt)
    (notes : List Char) (s : Nat)
    (hs1 : 400 ≤ s) (hs2 : s < 500) (hatt : att 0 = HttpAttempt.status s)
    (hfail : ∀ k, ∃ c, satt k = SumAttempt.apiErr c)
    (hn1 : notes ≠ []) (hn2 : notes ≠ noDescription) :
    releaseFetch att = (FetchRes.ok s, 1)
    ∧ (∃ c, (get_openrouter_summary_with_retry satt notes).1 =
        Except.error (SumErr.api c))
    ∧ (get_openrouter_summary_with_retry satt notes).2 = 3
    ∧ releaseFetch (fun _ => HttpAttempt.status 503) = (FetchRes.httpErr 503, 3)
    ∧ releaseFetch (fun _ => HttpAttempt.transport) = (FetchRes.netErr, 3) := by
  obtain ⟨c0, h0⟩ := hfail 0
  obtain ⟨c1, h1⟩ := hfail 1
  obtain ⟨c2, h2⟩ := hfail 2
  have hncond : ¬ (notes = [] ∨ notes = noDescription) := by
    intro h; rcases h with h | h
    · exact hn1 h
    · exact hn2 h
  have h500 : ¬ (500 ≤ s) := by omega
  refine ⟨?_, ?_, ?_, by decide, by decide⟩
  · simp [releaseFetch, fetchLoop, hatt, h500]
  · refine ⟨c2, ?_⟩
    simp [get_openrouter_summary_with_retry, if_neg hncond, sumLoop, h0, h1, h2]
  · simp [get_openrouter_summary_with_retry, if_neg hncond, sumLoop, h0, h1, h2]

/-- C5 (witness): the amended claim at a constantly failing 403 summary
oracle and a 403 release response. -/
theorem claim5_witness :
    releaseFetch (fun _ => HttpAttempt.status 403) = (FetchRes.ok 403, 1)
    ∧ (∃ c, (get_openrouter_summary_with_retry (fun _ => SumAttempt.apiErr 403) "y".data).1 =
        Except.error (SumErr.api c))
    ∧ (get_openrouter_summary_with_retry (fun _ => SumAttempt.apiErr 403) "y".data).2 = 3
    ∧ releaseFetch (fun _ => HttpAttempt.status 503) = (FetchRes.httpErr 503, 3)
    ∧ releaseFetch (fun _ => HttpAttempt.transport) = (FetchRes.netErr, 3) :=
  claim5_amended (fun _ => HttpAttempt.status 403) (fun _ => SumAttempt.apiErr 403)
    "y".data 403 (by decide) (by decide) rfl (fun k => ⟨403, rfl⟩)
    (by decide) (by decide)

/-! ### Claims C6, C7, C9: the repository check task and the coordinator -/

/-- C6: when the release-fetch returns HTTP 404 on its first attempt the
retry block ends after exactly one attempt (no retry); the secondary
existence check decides the outcome: a 200 yields no update and no
notification, anything else (a non-200 status or a raised check) yields a
terminal outcome with a repository-not-found operator notification
through the notification sink. -/
theorem claim6_not_found (env : RepoEnv) (last : Option Int)
    (h : env.fetch 0 = HttpAttempt.status 404) :
    releaseFetch env.fetch = (FetchRes.ok 404, 1)
    ∧ (env.existCheck = some 200 →
        check_repo_for_updates env last = (none, []))
    ∧ (env.existCheck ≠ some 200 →
        check_repo_for_updates env last =
          (none, [Event.errorNote (repoNotFoundText env)])) := by
  have hfetch : releaseFetch env.fetch = (FetchRes.ok 404, 1) := by
    simp [releaseFetch, fetchLoop, h]
  refine ⟨hfetch, ?_, ?_⟩
  · intro he
    simp [check_repo_for_updates, hfetch, he]
  · intro he
    match hc : env.existCheck with
    | none => simp [check_repo_for_updates, hfetch, hc]
    | some code =>
      have hcode : code ≠ 200 := by
        intro h2; exact he (by rw [hc, h2])
      simp [check_repo_for_updates, hfetch, hc, hcode]

/-- A concrete task environment whose release fetch answers 404 and whose
existence check answers 500. -/
def env404 : RepoEnv :=
  { repoName := "demo".data
    repoPath := "o/demo".data
    fetch := fun _ => HttpAttempt.status 404
    existCheck := some 500
    releaseId := 7
    tagName := "v1.0".data
    htmlUrl := "https://github.com/o/demo/releases/tag/v1.0".data
    publishedAt := "2024-05-01T10:00:00Z".data
    prerelease := false
    body := some "notes".data
    sumAttempts := fun _ => SumAttempt.apiErr 500
    uuid := cexUuid
    sendResult := none }

/-- C6 (witness): the not-found branch at the concrete environment. -/
theorem claim6_witness :
    check_repo_for_updates env404 none =
      (none, [Event.errorNote (repoNotFoundText env404)]) :=
  (claim6_not_found env404 none rfl).2.2 (by decide)

/-- C7: counterexample.  A repository whose stored id is 100 and whose
fetched latest release id is 0 sends exactly one notification, but the
coordinator's `elif result:` treats the returned 0 as falsy and does not
record it: the new state still maps the repository to 100, not to the
fetched id as the claim demands. -/
theorem claim7_counterexample :
    (check_repo_for_updates
        { env404 with fetch := fun _ => HttpAttempt.status 200, releaseId := 0,
                      body := some "hello world notes".data }
        (some 100)).1 = some 0
    ∧ (check_repo_for_updates
        { env404 with fetch := fun _ => HttpAttempt.status 200, releaseId := 0,
                      body := some "hello world notes".data }
        (some 100)).2.length = 1
    ∧ mainAggregate (fun n => if n = "demo".data then some 100 else none)
        [("demo".data,
          Except.ok (check_repo_for_updates
            { env404 with fetch := fun _ => HttpAttempt.status 200, releaseId := 0,
                          body := some "hello world notes".data }
            (some 100)).1)]
        "demo".data = some 100 := by
  refine ⟨?_, ?_, ?_⟩ <;> decide

/-- C7 (amended): for a task whose release fetch succeeds: an id equal to
the stored one sends nothing and leaves the state entry unchanged; a
different id sends exactly one (possibly multi-chunk) notification and,
provided the fetched id is nonzero, the coordinator maps the repository
to the fetched id — a fetched id of 0 is notified but, being falsy, is
not committed; when the send fails the task returns no id; and a task
result of `None` or an exception contributes no update to the state. -/
theorem claim7_amended (env : RepoEnv) (s : Nat) (l : Int)
    (st : List Char → Option Int) (name : List Char)
    (hfetch : (releaseFetch env.fetch).1 = FetchRes.ok s) (hs : s < 400) :
    (env.releaseId = l →
      check_repo_for_updates env (some l) = (none, [])
      ∧ mainAggregate st
          [(name, Except.ok (check_repo_for_updates env (some l)).1)] name = st name)
    ∧ (env.releaseId ≠ l → env.sendResult = none →
        (check_repo_for_updates env (some l)).1 = some env.releaseId
        ∧ (∃ m, (check_repo_for_updates env (some l)).2 = [Event.releaseMsg m])
        ∧ (env.releaseId ≠ 0 →
            mainAggregate st
              [(name, Except.ok (check_repo_for_updates env (some l)).1)] name
              = some env.releaseId)
        ∧ (env.releaseId = 0 →
            mainAggregate st
              [(name, Except.ok (check_repo_for_updates env (some l)).1)] name
              = st name))
    ∧ (env.releaseId ≠ l → env.sendResult ≠ none →
        (check_repo_for_updates env (some l)).1 = none)
    ∧ (∀ r : Except Unit (Option Int), r = Except.ok none ∨ r = Except.error () →
        mainAggregate st [(name, r)] name = st name) := by
  have h400 : ¬ (400 ≤ s) := by omega
  refine ⟨?_, ?_, ?_, ?_⟩
  · intro hid
    have hmatch : idMatches env.releaseId (some l) = true := by
      simp [idMatches, hid]
    constructor
    · simp [check_repo_for_updates, hfetch, h400, hmatch]
    · simp [check_repo_for_updates, hfetch, h400, hmatch, mainAggregate, mainStep]
  · intro hid hsend
    have hmatch : idMatches env.releaseId (some l) = false := by
      simp [idMatches, hid]
    have hres : check_repo_for_updates env (some l) =
        (some env.releaseId,
         [Event.releaseMsg (buildMessage env
           (get_openrouter_summary env.uuid env.sumAttempts (origBody env)))]) := by
      simp [check_repo_for_updates, hfetch, h400, hmatch, hsend]
    refine ⟨by rw [hres], ⟨_, by rw [hres]⟩, ?_, ?_⟩
    · intro hz
      rw [hres]
      simp [mainAggregate, mainStep, hz]
    · intro hz
      rw [hres]
      simp [mainAggregate, mainStep, hz]
  · intro hid hsend
    have hmatch : idMatches env.releaseId (some l) = false := by
      simp [idMatches, hid]
    match hse : env.sendResult with
    | none => exact absurd hse hsend
    | some (SendErr.httpStatus c) =>
      by_cases hc : c = 404
      · subst hc
        match hex : env.existCheck with
        | none => simp [check_repo_for_updates, hfetch, h400, hmatch, hse, hex]
        | some code =>
          by_cases hcode : code = 200
          · simp [check_repo_for_updates, hfetch, h400, hmatch, hse, hex, hcode]
          · simp [check_repo_for_updates, hfetch, h400, hmatch, hse, hex, hcode]
      · simp [check_repo_for_updates, hfetch, h400, hmatch, hse, hc]
    | some SendErr.network =>
      simp [check_repo_for_updates, hfetch, h400, hmatch, hse]
  · intro r hr
    rcases hr with hr | hr <;> subst hr <;> simp [mainAggregate, mainStep]

/-- C7 (witness): the amended claim at the concrete environment with
stored id 100 and fetched id 101. -/
theorem claim7_witness :
    (check_repo_for_updates
        { env404 with fetch := fun _ => HttpAttempt.status 200, releaseId := 101 }
        (some 100)).1 = some 101
    ∧ mainAggregate (fun n => if n = "demo".data then some 100 else none)
        [("demo".data,
          Except.ok (check_repo_for_updates
            { env404 with fetch := fun _ => HttpAttempt.status 200, releaseId := 101 }
            (some 100)).1)]
        "demo".data = some 101 := by
  have h := (claim7_amended
    { env404 with fetch := fun _ => HttpAttempt.status 200, releaseId := 101 }
    200 100 (fun n => if n = "demo".data then some 100 else none) "demo".data
    (by decide) (by decide)).2.1 (by decide) rfl
  exact ⟨h.1, h.2.2.1 (by decide)⟩

/-- C9: a fetched latest release id of 0 that differs from the stored id
is announced (exactly one notification handed to the sink), yet the
coordinator commits results only when they are truthy, so the state
entry keeps its old value — the same release would be re-announced on
every later run. -/
theorem claim9_zero_id (env : RepoEnv) (s : Nat) (l : Int)
    (st : List Char → Option Int) (name : List Char)
    (hfetch : (releaseFetch env.fetch).1 = FetchRes.ok s) (hs : s < 400)
    (hid : env.releaseId = 0) (hl : l ≠ 0) (hsend : env.sendResult = none) :
    (check_repo_for_updates env (some l)).1 = some 0
    ∧ (∃ m, (check_repo_for_updates env (some l)).2 = [Event.releaseMsg m])
    ∧ mainAggregate st
        [(name, Except.ok (check_repo_for_updates env (some l)).1)] name = st name := by
  have h400 : ¬ (400 ≤ s) := by omega
  have hmatch : idMatches env.releaseId (some l) = false := by
    simp [idMatches, hid]
    exact fun he => hl he.symm
  have hres : check_repo_for_updates env (some l) =
      (some env.releaseId,
       [Event.releaseMsg (buildMessage env
         (get_openrouter_summary env.uuid env.sumAttempts (origBody env)))]) := by
    simp [check_repo_for_updates, hfetch, h400, hmatch, hsend]
  refine ⟨by rw [hres, hid], ⟨_, by rw [hres]⟩, ?_⟩
  rw [hres, hid]
  simp [mainAggregate, mainStep]

/-- C9 (witness): the zero-id scenario at the concrete environment with
stored id 100. -/
theorem claim9_witness :
    (check_repo_for_updates
        { env404 with fetch := fun _ => HttpAttempt.status 200, releaseId := 0 }
        (some 100)).1 = some 0
    ∧ (∃ m, (check_repo_for_updates
        { env404 with fetch := fun _ => HttpAttempt.status 200, releaseId := 0 }
        (some 100)).2 = [Event.releaseMsg m])
    ∧ mainAggregate (fun n => if n = "demo".data then some 100 else none)
        [("demo".data,
          Except.ok (check_repo_for_updates
            { env404 with fetch := fun _ => HttpAttempt.status 200, releaseId := 0 }
            (some 100)).1)]
        "demo".data = some 100 :=
  claim9_zero_id
    { env404 with fetch := fun _ => HttpAttempt.status 200, releaseId := 0 }
    200 100 (fun n => if n = "demo".data then some 100 else none) "demo".data
    (by decide) (by decide) rfl (by decide) rfl

/-! ### Claim C10: the unescaped sentinel summary -/

/-- Scan for a `.` not immediately preceded by a backslash, tracking the
previous character. -/
def hasUnescapedDotAux : Option Char → List Char → Bool
  | _, [] => false
  | prev, c :: t =>
    (c == '.' && !(prev == some '\\')) || hasUnescapedDotAux (some c) t

/-- `true` iff the text contains a reserved `.` that is not escaped. -/
def hasUnescapedDot (l : List Char) : Bool := hasUnescapedDotAux none l

theorem hasUnescapedDotAux_pattern :
    ∀ (l r : List Char) (prev : Option Char),
      hasUnescapedDotAux prev (l ++ 'я' :: '.' :: r) = true := by
  intro l
  induction l with
  | nil =>
    intro r prev
    simp [hasUnescapedDotAux]
  | cons c t ih =>
    intro r prev
    simp [hasUnescapedDotAux, ih r (some c)]

/-- C10: when the release body is `None` or the empty string, the early
return of `get_openrouter_summary_with_retry` yields the literal
`'Нет описания.'` untouched by any escaping, and the outgoing message
embeds it verbatim: the message contains the sentinel as a substring and
therefore carries a reserved `.` not preceded by an escape marker. -/
theorem claim10_unescaped_dot (env : RepoEnv) (s : Nat) (l : Int)
    (hfetch : (releaseFetch env.fetch).1 = FetchRes.ok s) (hs : s < 400)
    (hbody : env.body = none ∨ env.body = some [])
    (hdiff : idMatches env.releaseId (some l) = false)
    (hsend : env.sendResult = none) :
    check_repo_for_updates env (some l) =
      (some env.releaseId, [Event.releaseMsg (buildMessage env noDescription)])
    ∧ (∃ u v, buildMessage env noDescription = u ++ noDescription ++ v)
    ∧ hasUnescapedDot (buildMessage env noDescription) = true := by
  have h400 : ¬ (400 ≤ s) := by omega
  have hob : origBody env = noDescription := by
    rcases hbody with hb | hb <;> simp [origBody, hb]
  have hsum : get_openrouter_summary env.uuid env.sumAttempts (origBody env)
      = noDescription := by
    rw [hob]
    simp [get_openrouter_summary, get_openrouter_summary_with_retry]
  have hmsg : ∃ u v, buildMessage env noDescription = u ++ noDescription ++ v := by
    refine ⟨"🎉 *New Release: ".data ++ escape_markdown_v2 env.uuid env.repoName
      ++ "*\n📦 Version: `".data ++ escape_markdown_v2 env.uuid env.tagName
      ++ "` ".data ++ (if env.prerelease then "🧪 PRE\\-RELEASE".data else [])
      ++ "\n📅 Date: ".data ++ escape_markdown_v2 env.uuid (env.publishedAt.take 10)
      ++ "\n━━━━━━━━━━━━━━━━━━\n\n".data,
      "\n\n━━━━━━━━━━━━━━━━━━\n[📖 Full changelog](".data ++ env.htmlUrl ++ ")".data,
      ?_⟩
    simp [buildMessage, List.append_assoc]
  refine ⟨?_, hmsg, ?_⟩
  · simp [check_repo_for_updates, hfetch, h400, hdiff, hsend, hsum]
  · obtain ⟨u, v, huv⟩ := hmsg
    have hnd : noDescription = "Нет описани".data ++ ('я' :: '.' :: []) := by decide
    rw [huv, hnd]
    have : u ++ ("Нет описани".data ++ ('я' :: '.' :: [])) ++ v =
        (u ++ "Нет описани".data) ++ ('я' :: '.' :: v) := by
      simp [List.append_assoc]
    rw [this]
    exact hasUnescapedDotAux_pattern (u ++ "Нет описани".data) v none

/-- C10 (witness): the empty-body scenario at the concrete environment. -/
theorem claim10_witness :
    check_repo_for_updates
        { env404 with fetch := fun _ => HttpAttempt.status 200, body := none }
        (some 100) =
      (some 7, [Event.releaseMsg (buildMessage
        { env404 with fetch := fun _ => HttpAttempt.status 200, body := none }
        noDescription)])
    ∧ hasUnescapedDot (buildMessage
        { env404 with fetch := fun _ => HttpAttempt.status 200, body := none }
        noDescription) = true := by
  have h := claim10_unescaped_dot
    { env404 with fetch := fun _ => HttpAttempt.status 200, body := none }
    200 100 (by decide) (by decide) (Or.inl rfl) (by decide) rfl
  exact ⟨h.1, h.2.2⟩

/-! ### Claim C8: the fallback summarizer -/

theorem mem_of_takeWhileCh {p : Char → Bool} {l : List Char} {x : Char}
    (h : x ∈ l.takeWhile p) : x ∈ l :=
  (List.takeWhile_sublist p).subset h

theorem mem_of_dropWhileCh {p : Char → Bool} {l : List Char} {x : Char}
    (h : x ∈ l.dropWhile p) : x ∈ l :=
  (List.dropWhile_sublist p).subset h

theorem mem_of_collapseWSF :
    ∀ (fuel : Nat) (l : List Char) (x : Char), x ∈ collapseWSF fuel l →
      x ∈ l ∨ x = '\n' := by
  intro fuel
  induction fuel with
  | zero => intro l x h; exact Or.inl h
  | succ f ih =>
    intro l x h
    cases l with
    | nil => simp [collapseWSF] at h
    | cons c t =>
      by_cases hc : c = '\n'
      · subst hc
        simp only [collapseWSF, if_pos rfl] at h
        by_cases hrun : '\n' ∈ t.takeWhile isPyWS
        · rw [if_pos hrun] at h
          rcases List.mem_cons.mp h with h | h
          · exact Or.inr h
          · rcases ih _ x h with h | h
            · rcases List.mem_append.mp h with h | h
              · have hb1 := List.mem_reverse.mp h
                have hb2 := mem_of_takeWhileCh hb1
                have hb3 := List.mem_reverse.mp hb2
                exact Or.inl (List.mem_cons_of_mem _ (mem_of_takeWhileCh hb3))
              · exact Or.inl (List.mem_cons_of_mem _ (mem_of_dropWhileCh h))
            · exact Or.inr h
        · rw [if_neg hrun] at h
          rcases List.mem_cons.mp h with h | h
          · exact Or.inr h
          · rcases ih _ x h with h | h
            · exact Or.inl (List.mem_cons_of_mem _ h)
            · exact Or.inr h
      · simp only [collapseWSF, if_neg hc] at h
        rcases List.mem_cons.mp h with h | h
        · exact Or.inl (h ▸ List.mem_cons_self c t)
        · rcases ih _ x h with h | h
          · exact Or.inl (List.mem_cons_of_mem _ h)
          · exact Or.inr h

theorem mem_of_pyStrip {l : List Char} {x : Char} (h : x ∈ pyStrip l) : x ∈ l := by
  unfold pyStrip at h
  have h1 := List.mem_reverse.mp h
  have h2 := mem_of_dropWhileCh h1
  have h3 := List.mem_reverse.mp h2
  exact mem_of_dropWhileCh h3

theorem fallbackPlain_no_marker (notes : List Char) (c : Char)
    (hc : c ∈ markerChars) : c ∉ fallbackPlain notes := by
  intro hmem
  have hall : ∀ d ∈ markerChars, d ≠ '\n' ∧ d ≠ '.' := by decide
  have hcnl : c ≠ '\n' := (hall c hc).1
  have hcdot : c ≠ '.' := (hall c hc).2
  have hp3 : ∀ x ∈ pyStrip (collapseWS
      ((subLinkLabel notes).filter (fun d => !(d ∈ markerChars)))), x ≠ c := by
    intro x hx hxc
    subst hxc
    have h1 := mem_of_pyStrip hx
    rcases mem_of_collapseWSF _ _ _ h1 with h2 | h2
    · have := (List.mem_filter.mp h2).2
      simp [hc] at this
    · exact hcnl h2
  unfold fallbackPlain at hmem
  by_cases hlen : 500 <
      (pyStrip (collapseWS ((subLinkLabel notes).filter (fun d => !(d ∈ markerChars))))).length
  · rw [if_pos hlen] at hmem
    rcases List.mem_append.mp hmem with h | h
    · exact hp3 c (List.take_subset _ _ h) rfl
    · have hdots : ∀ d ∈ "...".data, d = '.' := by decide
      exact hcdot (hdots c h)
  · rw [if_neg hlen] at hmem
    exact hp3 c hmem rfl

theorem fallbackPlain_len (notes : List Char) :
    (fallbackPlain notes).length ≤ 500 := by
  unfold fallbackPlain
  by_cases hlen : 500 <
      (pyStrip (collapseWS ((subLinkLabel notes).filter (fun d => !(d ∈ markerChars))))).length
  · rw [if_pos hlen]
    rw [List.length_append, List.length_take]
    have : (3 : Nat) = "...".data.length := by decide
    omega
  · rw [if_neg hlen]
    omega

/-- C8: once the summary call is exhausted (the retried call ends in an
error), `get_openrouter_summary` returns the Escaper applied to the
cleaned original text: links stripped to their labels, every markup
marker character removed, blank runs collapsed, stripped, and truncated
to at most 500 characters with an appended `...` when the text exceeded
the budget.  The pipeline is built from total functions, so the fallback
never raises. -/
theorem claim8_fallback (uuid : Nat → List Char) (att : Nat → SumAttempt)
    (notes : List Char)
    (h : ∃ e, (get_openrouter_summary_with_retry att notes).1 = Except.error e) :
    get_openrouter_summary uuid att notes = escape_markdown_v2 uuid (fallbackPlain notes)
    ∧ (fallbackPlain notes).length ≤ 500
    ∧ (∀ c ∈ markerChars, c ∉ fallbackPlain notes)
    ∧ (500 < (pyStrip (collapseWS
          ((subLinkLabel notes).filter (fun d => !(d ∈ markerChars))))).length →
        ∃ u, fallbackPlain notes = u ++ "...".data) := by
  obtain ⟨e, he⟩ := h
  refine ⟨?_, fallbackPlain_len notes, ?_, ?_⟩
  · simp [get_openrouter_summary, he]
  · intro c hc; exact fallbackPlain_no_marker notes c hc
  · intro hlen
    refine ⟨(pyStrip (collapseWS
      ((subLinkLabel notes).filter (fun d => !(d ∈ markerChars))))).take 497, ?_⟩
    simp [fallbackPlain, if_pos hlen]

/-- C8 (witness): the fallback at a constantly failing oracle and a
marked-up input. -/
theorem claim8_witness :
    get_openrouter_summary cexUuid (fun _ => SumAttempt.apiErr 500)
        "Fixed **bug** in [parser](http://x).".data
      = escape_markdown_v2 cexUuid
          (fallbackPlain "Fixed **bug** in [parser](http://x).".data)
    ∧ (fallbackPlain "Fixed **bug** in [parser](http://x).".data).length ≤ 500
    ∧ '*' ∉ fallbackPlain "Fixed **bug** in [parser](http://x).".data := by
  have h := claim8_fallback cexUuid (fun _ => SumAttempt.apiErr 500)
    "Fixed **bug** in [parser](http://x).".data ⟨SumErr.api 500, rfl⟩
  exact ⟨h.1, h.2.1, h.2.2.1 '*' (by decide)⟩

/-! ### Claims C3, C4: the chunker -/

/-- The characters of a text other than the join character `'\n'`. -/
def filterNN (l : List Char) : List Char := l.filter (fun c => c != '\n')

theorem filterNN_append (a b : List Char) :
    filterNN (a ++ b) = filterNN a ++ filterNN b :=
  List.filter_append a b

theorem filterNN_cons_nl (l : List Char) : filterNN ('\n' :: l) = filterNN l := by
  simp [filterNN]

theorem filterNN_nil : filterNN [] = [] := rfl

theorem flatten_consHead (c : Char) (xs : List (List Char)) :
    (consHead c xs).flatten = c :: xs.flatten := by
  cases xs with
  | nil => simp [consHead]
  | cons h r => simp [consHead]

theorem splitNL_flatten (t : List Char) :
    (splitNL t).flatten = filterNN t := by
  induction t using splitNL.induct with
  | case1 => simp [splitNL, filterNN]
  | case2 t ih => simp [splitNL, filterNN_cons_nl]; simpa [filterNN] using ih
  | case3 c t hne ih =>
    rw [splitNL.eq_3 c t (by intro h2; exact hne h2)]
    rw [flatten_consHead, ih]
    by_cases hc : c = '\n'
    · exact absurd hc (by intro h2; exact hne h2)
    · simp [filterNN, hc]

theorem splitSep2_flatten (t : List Char) :
    filterNN (splitSep2 t).flatten = filterNN t := by
  induction t using splitSep2.induct with
  | case1 => simp [splitSep2, filterNN]
  | case2 t ih =>
    simp only [splitSep2, List.flatten_cons, List.nil_append, ih,
      filterNN_cons_nl]
  | case3 c t hne ih =>
    rw [splitSep2.eq_3 c t (by intro t2 h1 h2; exact hne t2 h1 h2)]
    rw [flatten_consHead]
    by_cases hc : c = '\n'
    · subst hc; rw [filterNN_cons_nl, filterNN_cons_nl, ih]
    · simp only [filterNN, List.filter] at ih ⊢
      simp [hc, ih]

theorem filterNN_idem (l : List Char) : filterNN (filterNN l) = filterNN l := by
  simp [filterNN, List.filter_filter]

theorem packLines_filter (maxL : Nat) :
    ∀ (ls : List (List Char)) (cur : List Char) (chunks : List (List Char)),
      filterNN ((packLines maxL ls cur chunks).1.flatten
          ++ (packLines maxL ls cur chunks).2)
        = filterNN (chunks.flatten ++ cur ++ ls.flatten) := by
  intro ls
  induction ls with
  | nil =>
    intro cur chunks
    simp only [packLines, List.flatten_nil, List.append_nil]
  | cons l ls ih =>
    intro cur chunks
    by_cases hfit : cur.length + l.length + 1 ≤ maxL
    · simp only [packLines, if_pos hfit]
      rw [ih]
      by_cases hcur : cur = []
      · subst hcur
        simp [List.flatten_cons, List.append_assoc]
      · simp only [if_neg hcur, List.flatten_cons]
        simp only [filterNN_append, filterNN_cons_nl, List.append_assoc]
    · simp only [packLines, if_neg hfit]
      rw [ih]
      by_cases hcur : cur = []
      · subst hcur
        simp [List.flatten_cons, filterNN_append, filterNN_nil,
          List.append_assoc]
      · simp only [if_neg hcur, List.flatten_cons, List.flatten_append,
          List.flatten_cons, List.flatten_nil, List.append_nil,
          filterNN_append, List.append_assoc]

theorem packParas_filter (maxL : Nat) :
    ∀ (ps : List (List Char)) (cur : List Char) (chunks : List (List Char)),
      filterNN ((packParas maxL ps cur chunks).1.flatten
          ++ (packParas maxL ps cur chunks).2)
        = filterNN (chunks.flatten ++ cur ++ ps.flatten) := by
  intro ps
  induction ps with
  | nil =>
    intro cur chunks
    simp only [packParas, List.flatten_nil, List.append_nil]
  | cons p ps ih =>
    intro cur chunks
    by_cases hfit : cur.length + p.length + 2 ≤ maxL
    · simp only [packParas, if_pos hfit]
      rw [ih]
      by_cases hcur : cur = []
      · subst hcur
        simp [List.flatten_cons, List.append_assoc]
      · simp only [if_neg hcur, List.flatten_cons]
        simp only [filterNN_append, filterNN_cons_nl, List.append_assoc]
    · by_cases hcur : cur ≠ []
      · simp only [packParas, if_neg hfit, if_pos hcur]
        rw [ih]
        simp only [List.flatten_cons, List.flatten_append, List.flatten_nil,
          List.append_nil, filterNN_append, List.append_assoc]
      · have hcur2 : cur = [] := by
          by_cases h2 : cur = []
          · exact h2
          · exact absurd h2 hcur
        subst hcur2
        simp only [packParas, if_neg hfit, if_neg hcur]
        rw [ih]
        have hfl := packLines_filter maxL (splitNL p) [] chunks
        rw [splitNL_flatten] at hfl
        simp only [List.append_nil, List.nil_append] at hfl ⊢
        simp only [List.flatten_cons, filterNN_append] at hfl ⊢
        have hidem := filterNN_idem p
        rw [hidem] at hfl
        rw [hfl, List.append_assoc]

/-- Chunk disjunct of the amended C3: within the bound, or a verbatim
original paragraph, or a verbatim original line of a paragraph. -/
def okChunk (maxL : Nat) (paras : List (List Char)) (c : List Char) : Prop :=
  c.length ≤ maxL ∨ c ∈ paras ∨ c ∈ paras.flatMap splitNL

theorem packLines_ok (maxL : Nat) (paras : List (List Char)) :
    ∀ (ls : List (List Char)) (cur : List Char) (chunks : List (List Char)),
      (∀ l ∈ ls, l ∈ paras.flatMap splitNL) →
      (∀ c ∈ chunks, okChunk maxL paras c) →
      okChunk maxL paras cur →
      (∀ c ∈ (packLines maxL ls cur chunks).1, okChunk maxL paras c)
      ∧ okChunk maxL paras (packLines maxL ls cur chunks).2 := by
  intro ls
  induction ls with
  | nil =>
    intro cur chunks hls hch hcur
    exact ⟨hch, hcur⟩
  | cons l ls ih =>
    intro cur chunks hls hch hcur
    have hl : l ∈ paras.flatMap splitNL := hls l (List.mem_cons_self l ls)
    have hls2 : ∀ x ∈ ls, x ∈ paras.flatMap splitNL :=
      fun x hx => hls x (List.mem_cons_of_mem _ hx)
    by_cases hfit : cur.length + l.length + 1 ≤ maxL
    · simp only [packLines, if_pos hfit]
      refine ih _ _ hls2 hch (Or.inl ?_)
      by_cases hcur2 : cur = []
      · rw [if_pos hcur2]
        subst hcur2
        simp only [List.length_nil] at hfit
        omega
      · rw [if_neg hcur2, List.length_append]
        simp only [List.length_cons]
        omega
    · simp only [packLines, if_neg hfit]
      refine ih _ _ hls2 ?_ (Or.inr (Or.inr hl))
      by_cases hcur2 : cur = []
      · simp only [if_pos hcur2]; exact hch
      · simp only [if_neg hcur2]
        intro c hc
        rcases List.mem_append.mp hc with hc | hc
        · exact hch c hc
        · rw [List.mem_singleton] at hc
          exact hc ▸ hcur

theorem packParas_ok (maxL : Nat) (paras : List (List Char)) :
    ∀ (ps : List (List Char)) (cur : List Char) (chunks : List (List Char)),
      (∀ p ∈ ps, p ∈ paras) →
      (∀ c ∈ chunks, okChunk maxL paras c) →
      okChunk maxL paras cur →
      (∀ c ∈ (packParas maxL ps cur chunks).1, okChunk maxL paras c)
      ∧ okChunk maxL paras (packParas maxL ps cur chunks).2 := by
  intro ps
  induction ps with
  | nil =>
    intro cur chunks hps hch hcur
    exact ⟨hch, hcur⟩
  | cons p ps ih =>
    intro cur chunks hps hch hcur
    have hp : p ∈ paras := hps p (List.mem_cons_self p ps)
    have hps2 : ∀ x ∈ ps, x ∈ paras :=
      fun x hx => hps x (List.mem_cons_of_mem _ hx)
    by_cases hfit : cur.length + p.length + 2 ≤ maxL
    · simp only [packParas, if_pos hfit]
      refine ih _ _ hps2 hch (Or.inl ?_)
      by_cases hcur2 : cur = []
      · rw [if_pos hcur2]
        subst hcur2
        simp only [List.length_nil] at hfit
        omega
      · rw [if_neg hcur2, List.length_append]
        simp only [List.length_cons]
        omega
    · by_cases hcur2 : cur ≠ []
      · simp only [packParas, if_neg hfit, if_pos hcur2]
        refine ih _ _ hps2 ?_ (Or.inr (Or.inl hp))
        intro c hc
        rcases List.mem_append.mp hc with hc | hc
        · exact hch c hc
        · rw [List.mem_singleton] at hc
          exact hc ▸ hcur
      · simp only [packParas, if_neg hfit, if_neg hcur2]
        have hcur3 : cur = [] := by
          by_cases h2 : cur = []
          · exact h2
          · exact absurd h2 hcur2
        have hlines : ∀ l ∈ splitNL p, l ∈ paras.flatMap splitNL :=
          fun l hl => List.mem_flatMap.mpr ⟨p, hp, hl⟩
        have hpl := packLines_ok maxL paras (splitNL p) cur chunks hlines hch hcur
        exact ih _ _ hps2 hpl.1 hpl.2

/-- C3: counterexample.  With `max_length = 5` and the input
`"aaa\n\nbbb\nccc"` no original line is longer than 5, yet the returned
chunks exceed 5: the paragraph `"bbb\nccc"` (length 7) is emitted
verbatim because the current chunk was nonempty (the line-splitting
branch is unreachable there), and the appended `(часть i/N)` indicators
push every chunk past the limit because packing reserved no room for
them. -/
theorem claim3_counterexample :
    (∀ l ∈ (splitSep2 "aaa\n\nbbb\nccc".data).flatMap splitNL, l.length ≤ 5)
    ∧ (∃ c ∈ split_message_markdown cexUuid "aaa\n\nbbb\nccc".data 5,
        5 < c.length)
    ∧ (∃ c ∈ splitRaw "aaa\n\nbbb\nccc".data 5, 5 < c.length) := by
  refine ⟨by decide, ?_, ?_⟩ <;> decide

/-- C3 (amended): every chunk produced by the packing loops — i.e. every
chunk of `split_message_markdown` measured before its part indicator is
appended — has length at most `max_length`, except chunks that are
emitted verbatim as a single original paragraph or a single original
line, which may exceed it; the indicator append afterwards may push any
chunk past `max_length`. -/
theorem claim3_amended (text : List Char) (maxL : Nat) (c : List Char)
    (h : c ∈ splitRaw text maxL) :
    c.length ≤ maxL ∨ c ∈ splitSep2 text
      ∨ c ∈ (splitSep2 text).flatMap splitNL := by
  have hok := packParas_ok maxL (splitSep2 text) (splitSep2 text) [] []
    (fun p hp => hp) (fun c hc => absurd hc (List.not_mem_nil c))
    (Or.inl (by simp))
  unfold splitRaw at h
  by_cases hemp : (packParas maxL (splitSep2 text) [] []).2 = []
  · rw [if_pos hemp] at h
    exact hok.1 c h
  · rw [if_neg hemp] at h
    rcases List.mem_append.mp h with h | h
    · exact hok.1 c h
    · rw [List.mem_singleton] at h
      exact h ▸ hok.2

/-- C3 (witness): the amended claim at the oversized-paragraph chunk of
the counterexample input. -/
theorem claim3_witness :
    "bbb\nccc".data.length ≤ 5 ∨ "bbb\nccc".data ∈ splitSep2 "aaa\n\nbbb\nccc".data
      ∨ "bbb\nccc".data ∈ (splitSep2 "aaa\n\nbbb\nccc".data).flatMap splitNL :=
  claim3_amended "aaa\n\nbbb\nccc".data 5 "bbb\nccc".data (by decide)

theorem addIndicators_length (uuid : Nat → List Char) (n : Nat) :
    ∀ (i : Nat) (l : List (List Char)),
      (addIndicators uuid n i l).length = l.length := by
  intro i l
  induction l generalizing i with
  | nil => rfl
  | cons c r ih => simp [addIndicators, ih]

theorem addIndicators_get (uuid : Nat → List Char) (n : Nat) :
    ∀ (l : List (List Char)) (i k : Nat)
      (h1 : k < (addIndicators uuid n i l).length) (h2 : k < l.length),
      (addIndicators uuid n i l).get ⟨k, h1⟩ =
        l.get ⟨k, h2⟩ ++ indicatorText uuid (i + k) n := by
  intro l
  induction l with
  | nil => intro i k h1 h2; cases h2
  | cons c r ih =>
    intro i k h1 h2
    cases k with
    | zero => simp [addIndicators]
    | succ k2 =>
      have h3 : k2 < (addIndicators uuid n (i + 1) r).length := by
        rw [addIndicators_length]
        exact Nat.lt_of_succ_lt_succ h2
      have h4 : k2 < r.length := Nat.lt_of_succ_lt_succ h2
      have := ih (i + 1) k2 h3 h4
      simp only [addIndicators, List.get_cons_succ]
      rw [this]
      have : i + 1 + k2 = i + (k2 + 1) := by omega
      rw [this]

/-- C4: the raw chunks reproduce the input up to the `'\n\n'` / `'\n'`
join characters (their concatenation, newline characters aside, equals
the input, newline characters aside); indicators are appended iff more
than one chunk resulted, every chunk `k` (0-based) of the returned
sequence then being its raw chunk followed by a trailing blank line and
the escaped italicized `(часть k+1/N)` indicator with the 1-based index
and the final total `N`; a single chunk (or none) is returned as is. -/
theorem claim4_chunker (uuid : Nat → List Char) (text : List Char) (maxL : Nat) :
    filterNN (rawChunks text maxL).flatten = filterNN text
    ∧ (split_message_markdown uuid text maxL).length = (rawChunks text maxL).length
    ∧ ((rawChunks text maxL).length ≤ 1 →
        split_message_markdown uuid text maxL = rawChunks text maxL)
    ∧ (1 < (rawChunks text maxL).length →
        ∀ (k : Nat) (h1 : k < (split_message_markdown uuid text maxL).length)
          (h2 : k < (rawChunks text maxL).length),
          (split_message_markdown uuid text maxL).get ⟨k, h1⟩ =
            (rawChunks text maxL).get ⟨k, h2⟩
              ++ indicatorText uuid (k + 1) (rawChunks text maxL).length) := by
  have hcontent : filterNN (rawChunks text maxL).flatten = filterNN text := by
    unfold rawChunks
    by_cases hfits : text.length ≤ maxL
    · rw [if_pos hfits]; simp
    · rw [if_neg hfits]
      unfold splitRaw
      have hpp := packParas_filter maxL (splitSep2 text) [] []
      simp only [List.flatten_nil, List.nil_append] at hpp
      rw [splitSep2_flatten] at hpp
      by_cases hemp : (packParas maxL (splitSep2 text) [] []).2 = []
      · rw [if_pos hemp]
        rw [hemp] at hpp
        simpa using hpp
      · rw [if_neg hemp]
        simpa [List.flatten_append, filterNN_append] using hpp
  refine ⟨hcontent, ?_, ?_, ?_⟩
  · unfold split_message_markdown
    by_cases hlen : 1 < (rawChunks text maxL).length
    · rw [if_pos hlen, addIndicators_length]
    · rw [if_neg hlen]
  · intro hle
    unfold split_message_markdown
    have : ¬ 1 < (rawChunks text maxL).length := by omega
    rw [if_neg this]
  · intro hgt k h1 h2
    have hsplit : split_message_markdown uuid text maxL =
        addIndicators uuid (rawChunks text maxL).length 1 (rawChunks text maxL) := by
      unfold split_message_markdown
      rw [if_pos hgt]
    have h1b : k < (addIndicators uuid (rawChunks text maxL).length 1
        (rawChunks text maxL)).length := by
      rw [addIndicators_length]; exact h2
    rw [List.get_of_eq hsplit ⟨k, h1⟩]
    rw [addIndicators_get uuid (rawChunks text maxL).length
      (rawChunks text maxL) 1 k h1b h2]
    rw [Nat.add_comm 1 k]

/-- C4 (witness): the indicator equation and content preservation at the
concrete split of `"aaa\n\nbbb\nccc"` with `max_length = 5`. -/
theorem claim4_witness :
    (split_message_markdown cexUuid "aaa\n\nbbb\nccc".data 5).get ⟨0, by decide⟩ =
      (rawChunks "aaa\n\nbbb\nccc".data 5).get ⟨0, by decide⟩
        ++ indicatorText cexUuid 1 (rawChunks "aaa\n\nbbb\nccc".data 5).length
    ∧ filterNN (rawChunks "aaa\n\nbbb\nccc".data 5).flatten =
        filterNN "aaa\n\nbbb\nccc".data := by
  have h := claim4_chunker cexUuid "aaa\n\nbbb\nccc".data 5
  exact ⟨h.2.2.2 (by decide) 0 (by decide) (by decide), h.1⟩
